import Mathlib

/-!
Shallow embedding of the blog backend (post/comment/user controllers and the
Mongoose schemas) and proofs of the specification claims about it.

Modelling conventions:
* ObjectIds are modelled as `Nat`; Mongoose ObjectId comparison
  (`toString` equality / the overridden `includes` on Mongoose arrays)
  is value equality.
* Dates are epoch milliseconds (`Int`); JavaScript number arithmetic in the
  trending score is modelled over `ℚ` (idealised real arithmetic).
* A Mongo collection is a `List` of documents; `findById` is `List.find?` on
  the id field, a Mongoose `save` writes the document back over every
  stored document carrying the same id.
* Each handler returns the new state of the collection it touches together
  with the response; error responses are the constructors of `ApiErr`
  (not-found 404, authorization 401, duplicate-key conflict 400,
  validation 400).
-/

namespace Blog

/-- Post status enum from the Mongoose `PostSchema` (`draft` / `published`). -/
inductive Status where
  | draft : Status
  | published : Status
deriving DecidableEq

/-- Document of the `Post` collection, following `PostSchema`. -/
structure Post where
  id : Nat
  title : String
  slug : String
  content_html : String
  excerpt : Option String
  cover_image : Option String
  author : Nat
  tags : List String
  category : Option String
  status : Status
  views : Nat
  likes : List Nat
  created_at : Int
  updated_at : Int
deriving DecidableEq

/-- Document of the `Comment` collection, following `CommentSchema`. -/
structure Comment where
  id : Nat
  post : Nat
  user : Nat
  content : String
  parent : Option Nat
  created_at : Int
  updated_at : Int
deriving DecidableEq

/-- Error taxonomy of the handlers (status code and message in comments). -/
inductive ApiErr where
  | notFound : ApiErr       -- 404, e.g. "Post not found"
  | notAuthorized : ApiErr  -- 401, e.g. "Not authorized to delete this post"
  | conflict : ApiErr       -- 400, "A post with this title already exists" (Mongo duplicate key 11000)
  | validation : ApiErr     -- 400, "Comment content is required"
deriving DecidableEq

/-! ## Slug derivation (createPost, postController.js lines 86-89)

`title.toLowerCase().replace(/[^a-z0-9]+/g, '-').replace(/(^-|-$)/g, '')`
-/

/-- Character class `[a-z0-9]` of the slug regex. -/
def isAlnumChar (c : Char) : Bool :=
  (decide ('a' ≤ c) && decide (c ≤ 'z')) || (decide ('0' ≤ c) && decide (c ≤ '9'))

/-- Left-to-right scan implementing the global replace of `/[^a-z0-9]+/g` by
a single hyphen; the flag records whether the scanner is inside a
non-alphanumeric run whose hyphen has already been emitted. -/
def collapseAux : Bool → List Char → List Char
  | _, [] => []
  | inRun, c :: cs =>
    if isAlnumChar c then c :: collapseAux false cs
    else if inRun then collapseAux true cs
    else '-' :: collapseAux true cs

/-- Replacement `.replace(/[^a-z0-9]+/g, '-')`: every maximal run of
characters outside `[a-z0-9]` becomes one hyphen. -/
def collapseRuns (l : List Char) : List Char := collapseAux false l

/-- One leading hyphen removed — the `^-` alternative of `/(^-|-$)/g`. -/
def trimLead : List Char → List Char
  | [] => []
  | c :: cs => if c = '-' then cs else c :: cs

/-- One trailing hyphen removed — the `-$` alternative of `/(^-|-$)/g`. -/
def trimTrail (l : List Char) : List Char := (trimLead l.reverse).reverse

/-- Slug of a title, embedding `createPost`'s two chained regex replaces on
the lowercased title. JavaScript's `toLowerCase` is modelled per character
by `Char.toLower`; on the ASCII range, the only characters the slug
alphabet `[a-z0-9]` can keep, the two agree. -/
def slugOf (title : String) : String :=
  ⟨trimTrail (trimLead (collapseRuns (title.toList.map Char.toLower)))⟩

/-! ## Trending score (getTrendingPosts, postController.js lines 168-184) -/

/-- Hours elapsed since the post was created, `(now - postDate) / (1000*60*60)`. -/
def hoursSince (now : Int) (p : Post) : ℚ :=
  ((now - p.created_at : Int) : ℚ) / (1000 * 60 * 60)

/-- Trending score
`(post.views * 1) + (post.likes.length * 3) - agePenalty` with
`agePenalty = hoursSincePosted > 24 ? (hoursSincePosted - 24) * 0.1 : 0`. -/
def trendingScore (now : Int) (p : Post) : ℚ :=
  let hoursSincePosted := hoursSince now p
  let agePenalty : ℚ :=
    if hoursSincePosted > 24 then (hoursSincePosted - 24) * (1 / 10) else 0
  ((p.views : ℚ) * 1) + ((p.likes.length : ℚ) * 3) - agePenalty

/-- Concrete post of the spec's trending example: views 10, two likes,
created at time 0. -/
def examplePost : Post :=
  { id := 1, title := "t", slug := "t", content_html := "c", excerpt := none
    cover_image := none, author := 7, tags := [], category := none
    status := Status.published, views := 10, likes := [21, 22]
    created_at := 0, updated_at := 0 }

/-! ## Trending list (getTrendingPosts, postController.js lines 157-216) -/

/-- Effective limit `parseInt(req.query.limit) || 4`: an absent or
unparseable limit (`parseInt` gives `NaN`) and an explicit `0` are falsy in
JavaScript, so both fall back to 4. -/
def effLimit : Option Nat → Nat
  | none => 4
  | some 0 => 4
  | some (n + 1) => n + 1

/-- Sort comparator of `getTrendingPosts` read as a boolean "a may come
before b": the comparator returns `b.trendingScore - a.trendingScore` when
the scores differ (higher score first) and
`new Date(b.created_at) - new Date(a.created_at)` otherwise (newer first). -/
def trendLe (now : Int) (a b : Post) : Bool :=
  if trendingScore now a = trendingScore now b then decide (b.created_at ≤ a.created_at)
  else decide (trendingScore now b < trendingScore now a)

/-- Reading-time estimate `Math.ceil(content_html.split(' ').length / 200)`. -/
def readTimeOf (p : Post) : Nat :=
  ((p.content_html.splitOn " ").length + 199) / 200

/-- Excerpt fallback `post.excerpt || post.content_html.substring(0, n) + '...'`
(the empty string is falsy). -/
def excerptOf (p : Post) (n : Nat) : String :=
  match p.excerpt with
  | some s => if s = "" then p.content_html.take n ++ "..." else s
  | none => p.content_html.take n ++ "..."

/-- Cover-image fallback
`post.cover_image || "https://picsum.photos/400/250?random=" + id.toString().slice(-6)`. -/
def coverImageOf (p : Post) : String :=
  match p.cover_image with
  | some s => if s = "" then "https://picsum.photos/400/250?random=" ++ (toString p.id).takeRight 6 else s
  | none => "https://picsum.photos/400/250?random=" ++ (toString p.id).takeRight 6

/-- Rounded debug score `Math.round(trendingScore * 100) / 100`
(`Math.round` is floor of x + 1/2, as is Mathlib's `round`). -/
def roundScore (x : ℚ) : ℚ := ((round (x * 100) : ℤ) : ℚ) / 100

/-- Response item of `getTrendingPosts`; `author` stands for the populated
author reference (the response carries its `name`). -/
structure TrendingEntry where
  id : Nat
  rank : Nat
  title : String
  excerpt : String
  coverImage : String
  author : Nat
  createdAt : Int
  readTime : Nat
  likes : Nat
  views : Nat
  trendingScore : ℚ
deriving DecidableEq

/-- Response item built from a ranked post. -/
def mkTrendingEntry (now : Int) (rank : Nat) (p : Post) : TrendingEntry :=
  { id := p.id, rank := rank, title := p.title, excerpt := excerptOf p 100
    coverImage := coverImageOf p, author := p.author, createdAt := p.created_at
    readTime := readTimeOf p, likes := p.likes.length, views := p.views
    trendingScore := roundScore (trendingScore now p) }

/-- Query `Post.find({ status: 'published' })`. -/
def publishedOf (posts : List Post) : List Post :=
  posts.filter fun p => decide (p.status = Status.published)

/-- Handler `getTrendingPosts`: score every published post, sort by the
comparator (a stable sort, as `Array.prototype.sort` is), truncate with
`slice(0, limit)`, and build the ranked response items. -/
def getTrendingPosts (now : Int) (posts : List Post) (limit? : Option Nat) : List TrendingEntry :=
  let limit := effLimit limit?
  let allPosts := publishedOf posts
  let sortedPosts := (allPosts.mergeSort (trendLe now)).take limit
  sortedPosts.enum.map fun ip => mkTrendingEntry now (ip.1 + 1) ip.2

/-! ## Store primitives -/

/-- Query `Post.findById`. -/
def findById (store : List Post) (pid : Nat) : Option Post :=
  store.find? fun p => p.id == pid

/-- Mongoose `post.save()`: the document is written back over every stored
document carrying the same `_id`. -/
def saveReplace (store : List Post) (p : Post) : List Post :=
  store.map fun q => if q.id == p.id then p else q

/-! ## getPostById (postController.js lines 39-76) -/

/-- Response body of `getPostById`; `author` stands for the populated author
reference. -/
structure PostResp where
  id : Nat
  title : String
  content : String
  excerpt : Option String
  coverImage : Option String
  author : Nat
  tags : List String
  category : Option String
  views : Nat
  likes : Nat
  userHasLiked : Bool
  createdAt : Int
  updatedAt : Int
deriving DecidableEq

/-- Handler `getPostById`: on a hit it increments the view counter, saves the
post (the pre-save hook refreshes `updated_at`), and reports whether the
requesting identity, when present, is in the likes set; a miss is a 404. -/
def getPostById (store : List Post) (pid : Nat) (reqUser : Option Nat) (now : Int) :
    List Post × Except ApiErr PostResp :=
  match findById store pid with
  | none => (store, Except.error ApiErr.notFound)
  | some post =>
    let post := { post with views := post.views + 1, updated_at := now }
    let userHasLiked :=
      match reqUser with
      | some uid => post.likes.contains uid
      | none => false
    (saveReplace store post,
      Except.ok
        { id := post.id, title := post.title, content := post.content_html,
          excerpt := post.excerpt, coverImage := post.cover_image, author := post.author,
          tags := post.tags, category := post.category, views := post.views,
          likes := post.likes.length, userHasLiked := userHasLiked,
          createdAt := post.created_at, updatedAt := post.updated_at })

/-- State reached after `n` reads of the same post, the k-th read happening
at time `times k`. -/
def getPostN (store : List Post) (pid : Nat) (reqUser : Option Nat) (times : Nat → Int) :
    Nat → List Post
  | 0 => store
  | n + 1 => (getPostById (getPostN store pid reqUser times n) pid reqUser (times n)).1

/-- Concrete post used by the witnesses. -/
def wPost : Post :=
  { id := 1, title := "w", slug := "w", content_html := "c", excerpt := none
    cover_image := none, author := 7, tags := [], category := none
    status := Status.published, views := 10, likes := [], created_at := 0, updated_at := 0 }

/-! ## likePost (postController.js lines 253-282) -/

/-- Response body of `likePost`. -/
structure LikeResp where
  liked : Bool
  likesCount : Nat
  message : String
deriving DecidableEq

/-- Toggle step of `likePost`: when the requester is in the likes array it
is filtered out (`toString` comparison is ObjectId value equality),
otherwise it is pushed. Membership is Mongoose-array `includes`, which
compares ObjectIds by value. -/
def toggleLikes (likes : List Nat) (uid : Nat) : List Nat :=
  if likes.contains uid then likes.filter fun i => i != uid
  else likes ++ [uid]

/-- Handler `likePost`: 404 on a missing post, otherwise toggle the
requester in the likes set and save. -/
def likePost (store : List Post) (pid uid : Nat) (now : Int) :
    List Post × Except ApiErr LikeResp :=
  match findById store pid with
  | none => (store, Except.error ApiErr.notFound)
  | some post =>
    let isLiked := post.likes.contains uid
    let newLikes := toggleLikes post.likes uid
    let post2 := { post with likes := newLikes, updated_at := now }
    (saveReplace store post2,
      Except.ok
        { liked := !isLiked, likesCount := newLikes.length,
          message := if isLiked then "Post unliked" else "Post liked" })

/-- Concrete post with two distinct likes, for the C9 witness. -/
def wPostLiked : Post :=
  { id := 2, title := "w2", slug := "w2", content_html := "c", excerpt := none
    cover_image := none, author := 7, tags := [], category := none
    status := Status.published, views := 0, likes := [5, 6], created_at := 0, updated_at := 0 }

/-! ## deletePost (postController.js lines 287-305) and
deleteComment (commentController.js lines 395-420) -/

/-- Query `Comment.findById`. -/
def findCommentById (store : List Comment) (cid : Nat) : Option Comment :=
  store.find? fun c => c.id == cid

/-- Handler `deletePost`: 404 on a missing post, 401 unless the requester is
the author, otherwise `Post.deleteOne({ _id })`. -/
def deletePost (store : List Post) (pid uid : Nat) : List Post × Except ApiErr String :=
  match findById store pid with
  | none => (store, Except.error ApiErr.notFound)
  | some post =>
    if post.author ≠ uid then (store, Except.error ApiErr.notAuthorized)
    else (store.filter fun p => !(p.id == pid), Except.ok "Post removed")

/-- Handler `deleteComment`: 404 on a missing comment, 401 unless the
requester is the comment's author, otherwise
`Comment.deleteMany({ $or: [{ _id: id }, { parent: id }] })`. -/
def deleteComment (store : List Comment) (cid uid : Nat) :
    List Comment × Except ApiErr String :=
  match findCommentById store cid with
  | none => (store, Except.error ApiErr.notFound)
  | some comment =>
    if comment.user ≠ uid then (store, Except.error ApiErr.notAuthorized)
    else (store.filter fun d => !(d.id == cid || d.parent == some cid),
      Except.ok "Comment removed")

/-- Comment at the root of the C5 example thread, authored by user 10. -/
def exC1 : Comment :=
  { id := 1, post := 100, user := 10, content := "root", parent := none
    created_at := 0, updated_at := 0 }

/-- First direct reply to `exC1`. -/
def exR1 : Comment :=
  { id := 2, post := 100, user := 11, content := "r1", parent := some 1
    created_at := 1, updated_at := 1 }

/-- Second direct reply to `exC1`. -/
def exR2 : Comment :=
  { id := 3, post := 100, user := 12, content := "r2", parent := some 1
    created_at := 2, updated_at := 2 }

/-- Reply to a reply: its parent is `exR1`, not `exC1`. -/
def exGrand : Comment :=
  { id := 4, post := 100, user := 13, content := "g", parent := some 2
    created_at := 3, updated_at := 3 }

/-- Unrelated top-level comment on the same post. -/
def exOther : Comment :=
  { id := 5, post := 100, user := 14, content := "o", parent := none
    created_at := 4, updated_at := 4 }

/-- Comment store of the C5 example. -/
def exCommentStore : List Comment := [exC1, exR1, exR2, exGrand, exOther]

/-! ## createPost (postController.js lines 81-119) -/

/-- Response body of a successful `createPost`. -/
structure CreateResp where
  id : Nat
  title : String
  slug : String
  createdAt : Int
deriving DecidableEq

/-- Handler `createPost`: derive the slug from the title; a stored post with
the same slug violates the unique index, Mongo raises duplicate-key error
11000 and the handler answers 400 "A post with this title already exists";
otherwise the post is inserted auto-published with fresh counters. -/
def createPost (store : List Post) (author : Nat) (title content : String)
    (tags : List String) (excerpt coverImage : Option String) (newId : Nat) (now : Int) :
    List Post × Except ApiErr CreateResp :=
  let slug := slugOf title
  if store.any fun p => p.slug == slug then
    (store, Except.error ApiErr.conflict)
  else
    let post : Post :=
      { id := newId, title := title, slug := slug, content_html := content
        excerpt := excerpt, cover_image := coverImage, author := author, tags := tags
        category := none, status := Status.published, views := 0, likes := []
        created_at := now, updated_at := now }
    (store ++ [post], Except.ok { id := newId, title := title, slug := slug, createdAt := now })

/-- Stored post whose slug collides with the slug of "Hello, World!". -/
def wSlugPost : Post :=
  { id := 3, title := "Hello World", slug := "hello-world", content_html := "c"
    excerpt := none, cover_image := none, author := 7, tags := [], category := none
    status := Status.published, views := 0, likes := [], created_at := 0, updated_at := 0 }

/-! ## Non-owner deletes (C8) -/

/-! ## updateUserProfile (postController.js lines 124-152) -/

/-- Modelled from the spec: the `User` model file is not among the sources;
the fields name, email, bio, avatar and role come from spec section 3 and
are exactly the fields the handler reads and echoes. -/
structure User where
  id : Nat
  name : String
  email : String
  bio : String
  avatar_url : String
  role : String
deriving DecidableEq

/-- Request body of the profile update; `none` models an absent field. -/
structure ProfileBody where
  name : Option String
  bio : Option String
  avatar : Option String
deriving DecidableEq

/-- JavaScript `supplied || current` on string fields: an absent field and
the falsy empty string both keep the current value (and so does
`if (req.body.avatar) ...` for the avatar). -/
def jsOrStr (v : Option String) (current : String) : String :=
  match v with
  | some s => if s = "" then current else s
  | none => current

/-- Query `User.findById`. -/
def findUserById (users : List User) (uid : Nat) : Option User :=
  users.find? fun u => u.id == uid

/-- Response body of `updateUserProfile`. -/
structure UserResp where
  id : Nat
  name : String
  email : String
  bio : String
  avatar_url : String
  role : String
deriving DecidableEq

/-- Handler `updateUserProfile`: 404 on a missing user; otherwise name and
bio become `req.body.x || current`, the avatar is overwritten only when
truthy, the user is saved, and the response echoes the stored email and
role, which the handler never assigns. -/
def updateUserProfile (users : List User) (uid : Nat) (body : ProfileBody) :
    List User × Except ApiErr UserResp :=
  match findUserById users uid with
  | none => (users, Except.error ApiErr.notFound)
  | some user =>
    let user2 :=
      { user with
        name := jsOrStr body.name user.name
        bio := jsOrStr body.bio user.bio
        avatar_url := jsOrStr body.avatar user.avatar_url }
    (users.map fun v => if v.id == user2.id then user2 else v,
      Except.ok
        { id := user2.id, name := user2.name, email := user2.email,
          bio := user2.bio, avatar_url := user2.avatar_url, role := user2.role })

/-- Concrete user for the C10 witness. -/
def wUser : User :=
  { id := 4, name := "ada", email := "ada@example.com", bio := "bio", avatar_url := "pic"
    role := "user" }

/-! ## Slug versus its specification (C6)

The spec reads the two regex replaces as: lowercase the title, replace each
maximal run of non-alphanumeric characters by a single hyphen, trim a
leading and a trailing hyphen. `specWords`/`joinWords` state that reading
directly: the slug is the list of maximal alphanumeric runs of the
lowercased title, joined by single hyphens. -/

/-- Maximal alphanumeric runs of a character list, in order: skip the
non-alphanumeric characters before the next run, cut the run, recurse on
the remainder. -/
def specWords (l : List Char) : List (List Char) :=
  match h : l.dropWhile (fun c => !isAlnumChar c) with
  | [] => []
  | c :: cs => (c :: cs).takeWhile isAlnumChar :: specWords ((c :: cs).dropWhile isAlnumChar)
termination_by l.length
decreasing_by
  have hc : isAlnumChar c = true := by
    have hh := List.head?_dropWhile_not (fun c => !isAlnumChar c) l
    rw [h] at hh
    simpa using hh
  have h1 : ((c :: cs).dropWhile isAlnumChar).length = (cs.dropWhile isAlnumChar).length := by
    rw [List.dropWhile_cons_of_pos hc]
  have h2 : (cs.dropWhile isAlnumChar).length ≤ cs.length :=
    (List.dropWhile_sublist _).length_le
  have h3 : (c :: cs).length ≤ l.length := by
    rw [← h]
    exact (List.dropWhile_sublist _).length_le
  simp only [List.length_cons] at h3
  omega

/-- Words joined by single hyphens. -/
def joinWords : List (List Char) → List Char
  | [] => []
  | [w] => w
  | w :: w2 :: ws => w ++ '-' :: joinWords (w2 :: ws)

/-- Slug as the spec describes it: the maximal alphanumeric runs of the
lowercased title joined by single hyphens (which leaves no leading,
trailing or doubled hyphen). -/
def specSlug (title : String) : String :=
  ⟨joinWords (specWords (title.toList.map Char.toLower))⟩

/-- Whether the list ends in a non-alphanumeric character. -/
def endsNonAlnum (l : List Char) : Bool :=
  match l.getLast? with
  | some c => !isAlnumChar c
  | none => false

/-! ## Theorems -/

/-- Claim C1: for every post the trending score computed by
`getTrendingPosts` equals `views + 3*likes - agePenalty` with
`agePenalty = max 0 (hoursSincePosted - 24) * 0.1`; a post with views 10 and
2 likes posted now scores 16, and the same post 48 hours old scores
13.6 = 68/5. -/
theorem trendingScore_spec :
    (∀ (now : Int) (p : Post),
        trendingScore now p =
          (p.views : ℚ) + 3 * (p.likes.length : ℚ) -
            max 0 (hoursSince now p - 24) * (1 / 10))
    ∧ trendingScore 0 examplePost = 16
    ∧ trendingScore (48 * (1000 * 60 * 60)) examplePost = 68 / 5 := by
  refine ⟨fun now p => ?_, ?_, ?_⟩
  · simp only [trendingScore]
    by_cases h : hoursSince now p > 24
    · rw [if_pos h, max_eq_right (by linarith)]
      ring
    · rw [if_neg h, max_eq_left (by linarith)]
      ring
  · norm_num [trendingScore, hoursSince, examplePost]
  · norm_num [trendingScore, hoursSince, examplePost]

lemma trendLe_trans (now : Int) (a b c : Post) :
    trendLe now a b → trendLe now b c → trendLe now a c := by
  intro hab hbc
  unfold trendLe at hab hbc ⊢
  by_cases h1 : trendingScore now a = trendingScore now b
  · by_cases h2 : trendingScore now b = trendingScore now c
    · rw [if_pos h1] at hab
      rw [if_pos h2] at hbc
      rw [if_pos (h1.trans h2)]
      simp only [decide_eq_true_eq] at hab hbc ⊢
      omega
    · rw [if_neg h2] at hbc
      have h3 : ¬ trendingScore now a = trendingScore now c := by
        rw [h1]; exact h2
      rw [if_neg h3]
      simp only [decide_eq_true_eq] at hbc ⊢
      rw [h1]; exact hbc
  · rw [if_neg h1] at hab
    simp only [decide_eq_true_eq] at hab
    by_cases h2 : trendingScore now b = trendingScore now c
    · have h3 : ¬ trendingScore now a = trendingScore now c := fun h => h1 (h.trans h2.symm)
      rw [if_neg h3]
      simp only [decide_eq_true_eq]
      rw [← h2]; exact hab
    · rw [if_neg h2] at hbc
      simp only [decide_eq_true_eq] at hbc
      have h3 : ¬ trendingScore now a = trendingScore now c := by
        intro h; rw [h] at hab; linarith
      rw [if_neg h3]
      simp only [decide_eq_true_eq]
      linarith

lemma trendLe_total (now : Int) (a b : Post) :
    (trendLe now a b || trendLe now b a) = true := by
  unfold trendLe
  by_cases h1 : trendingScore now a = trendingScore now b
  · rw [if_pos h1, if_pos h1.symm]
    simp only [Bool.or_eq_true, decide_eq_true_eq]
    omega
  · rw [if_neg h1, if_neg (fun h => h1 h.symm)]
    simp only [Bool.or_eq_true, decide_eq_true_eq]
    exact (Ne.lt_or_lt h1).symm

/-- Claim C2: `getTrendingPosts` returns the published posts sorted in
descending trending-score order, equal scores ordered by newer creation time
first, truncated to the first N where N is the requested limit and defaults
to 4 when no limit is given. -/
theorem getTrendingPosts_spec (now : Int) (posts : List Post) (limit? : Option Nat) :
    ∃ s : List Post,
      List.Perm (publishedOf posts) s ∧
      s.Pairwise (fun a b =>
        trendingScore now b < trendingScore now a ∨
          (trendingScore now a = trendingScore now b ∧ b.created_at ≤ a.created_at)) ∧
      getTrendingPosts now posts limit? =
        ((s.take (effLimit limit?)).enum.map fun ip => mkTrendingEntry now (ip.1 + 1) ip.2) ∧
      (limit? = none → effLimit limit? = 4) := by
  refine ⟨(publishedOf posts).mergeSort (trendLe now),
    (List.mergeSort_perm _ _).symm, ?_, rfl, ?_⟩
  · have hs := List.sorted_mergeSort (trendLe_trans now) (trendLe_total now) (publishedOf posts)
    have himp : ∀ {x y : Post}, trendLe now x y = true →
        (trendingScore now y < trendingScore now x ∨
          (trendingScore now x = trendingScore now y ∧ y.created_at ≤ x.created_at)) := by
      intro x y hxy
      unfold trendLe at hxy
      by_cases h1 : trendingScore now x = trendingScore now y
      · rw [if_pos h1] at hxy
        simp only [decide_eq_true_eq] at hxy
        exact Or.inr ⟨h1, hxy⟩
      · rw [if_neg h1] at hxy
        simp only [decide_eq_true_eq] at hxy
        exact Or.inl hxy
    exact hs.imp himp
  · intro h
    subst h
    rfl

/-- Writing a document back and looking its id up again finds the written
document, provided the id was present before. -/
lemma find?_replace {α : Type} (idOf : α → Nat) (store : List α) (pid : Nat) (p : α)
    (hsome : (store.find? fun x => idOf x == pid).isSome) (hp : idOf p = pid) :
    (store.map fun x => if idOf x == pid then p else x).find? (fun x => idOf x == pid) =
      some p := by
  induction store with
  | nil => simp at hsome
  | cons r rest ih =>
    by_cases hr : (idOf r == pid) = true
    · simp only [List.map_cons, hr, if_pos]
      rw [List.find?_cons_of_pos]
      simp [hp]
    · have hrest : (rest.find? fun x => idOf x == pid).isSome := by
        rw [List.find?_cons_of_neg] at hsome
        · exact hsome
        · simp_all
      simp only [List.map_cons, hr, if_neg, Bool.false_eq_true, not_false_iff, ite_false]
      rw [List.find?_cons_of_neg]
      · exact ih hrest
      · simp_all

lemma findById_some_id {store : List Post} {pid : Nat} {p : Post}
    (h : findById store pid = some p) : p.id = pid := by
  have := List.find?_some h
  simpa using this

lemma getPostById_step (store : List Post) (pid : Nat) (p : Post) (reqUser : Option Nat)
    (now : Int) (h : findById store pid = some p) :
    findById (getPostById store pid reqUser now).1 pid =
      some { p with views := p.views + 1, updated_at := now } := by
  have hid : p.id = pid := findById_some_id h
  have hsome : (store.find? fun x => x.id == pid).isSome := by
    unfold findById at h
    rw [h]
    rfl
  simp only [getPostById, h]
  unfold findById saveReplace
  have hrep := find?_replace Post.id store pid
    { p with views := p.views + 1, updated_at := now } hsome (by simpa using hid)
  simpa [hid] using hrep

/-- Claim C3: each successful `getPostById` call increments the stored view
counter by exactly one, so after `n` reads the stored value is the initial
value plus `n`. -/
theorem getPostById_views (store : List Post) (pid : Nat) (p : Post) (reqUser : Option Nat)
    (times : Nat → Int) (n : Nat) (h : findById store pid = some p) :
    ∃ q, findById (getPostN store pid reqUser times n) pid = some q ∧
      q.views = p.views + n := by
  induction n with
  | zero => exact ⟨p, h, rfl⟩
  | succ n ih =>
    obtain ⟨q, hq, hv⟩ := ih
    refine ⟨{ q with views := q.views + 1, updated_at := times n }, ?_, ?_⟩
    · exact getPostById_step _ _ _ _ _ hq
    · show q.views + 1 = p.views + (n + 1)
      omega

/-- Witness for C3: three reads of a post stored with 10 views leave it with
13 views. -/
theorem getPostById_views_witness :
    ∃ q, findById (getPostN [wPost] 1 none (fun _ => 5) 3) 1 = some q ∧
      q.views = wPost.views + 3 :=
  getPostById_views [wPost] 1 wPost none (fun _ => 5) 3 (by rfl)

lemma likePost_step (store : List Post) (pid uid : Nat) (now : Int) (p : Post)
    (h : findById store pid = some p) :
    findById (likePost store pid uid now).1 pid =
      some { p with likes := toggleLikes p.likes uid, updated_at := now } := by
  have hid : p.id = pid := findById_some_id h
  have hsome : (store.find? fun x => x.id == pid).isSome := by
    unfold findById at h
    rw [h]
    rfl
  simp only [likePost, h]
  unfold findById saveReplace
  have hrep := find?_replace Post.id store pid
    { p with likes := toggleLikes p.likes uid, updated_at := now } hsome (by simpa using hid)
  simpa [hid] using hrep

lemma toggleLikes_of_mem (l : List Nat) (u : Nat) (h : u ∈ l) :
    toggleLikes l u = l.filter fun i => i != u := by
  unfold toggleLikes
  rw [if_pos (by simpa using h)]

lemma toggleLikes_of_not_mem (l : List Nat) (u : Nat) (h : u ∉ l) :
    toggleLikes l u = l ++ [u] := by
  unfold toggleLikes
  rw [if_neg (by simpa using h)]

lemma self_mem_toggleLikes (l : List Nat) (u : Nat) : u ∈ toggleLikes l u ↔ u ∉ l := by
  by_cases h : u ∈ l
  · rw [toggleLikes_of_mem l u h]
    simp [List.mem_filter, h]
  · rw [toggleLikes_of_not_mem l u h]
    simp [h]

lemma mem_toggleLikes_twice (l : List Nat) (u x : Nat) :
    x ∈ toggleLikes (toggleLikes l u) u ↔ x ∈ l := by
  by_cases h : u ∈ l
  · have h1 := toggleLikes_of_mem l u h
    have h2 : u ∉ toggleLikes l u := by
      rw [h1]
      simp
    rw [toggleLikes_of_not_mem _ u h2, h1]
    by_cases hx : x = u <;> simp [hx, h, List.mem_filter]
  · have h1 := toggleLikes_of_not_mem l u h
    have h2 : u ∈ toggleLikes l u := by
      rw [h1]
      simp
    rw [toggleLikes_of_mem _ u h2, h1]
    by_cases hx : x = u <;> simp [hx, h, List.mem_filter]

/-- Claim C4: `likePost` flips the requester's membership in the post's
likes set, and two consecutive calls by the same user restore the likes set
(same members) as it was. -/
theorem likePost_toggle (store : List Post) (pid uid : Nat) (p : Post) (now now2 : Int)
    (h : findById store pid = some p) :
    (∃ q, findById (likePost store pid uid now).1 pid = some q ∧
        (uid ∈ q.likes ↔ uid ∉ p.likes)) ∧
    (∃ r, findById (likePost (likePost store pid uid now).1 pid uid now2).1 pid = some r ∧
        ∀ x : Nat, x ∈ r.likes ↔ x ∈ p.likes) := by
  have h1 := likePost_step store pid uid now p h
  refine ⟨⟨_, h1, ?_⟩, ⟨_, likePost_step _ pid uid now2 _ h1, ?_⟩⟩
  · exact self_mem_toggleLikes p.likes uid
  · intro x
    exact mem_toggleLikes_twice p.likes uid x

/-- Witness for C4: liking the stored post with empty likes adds user 5;
liking again restores the empty membership. -/
theorem likePost_toggle_witness :
    (∃ q, findById (likePost [wPost] 1 5 2).1 1 = some q ∧
        (5 ∈ q.likes ↔ 5 ∉ wPost.likes)) ∧
    (∃ r, findById (likePost (likePost [wPost] 1 5 2).1 1 5 3).1 1 = some r ∧
        ∀ x : Nat, x ∈ r.likes ↔ x ∈ wPost.likes) :=
  likePost_toggle [wPost] 1 5 wPost 2 3 (by rfl)

lemma toggleLikes_nodup (l : List Nat) (u : Nat) (h : l.Nodup) : (toggleLikes l u).Nodup := by
  unfold toggleLikes
  by_cases hm : u ∈ l
  · rw [if_pos (by simpa using hm)]
    exact h.filter _
  · rw [if_neg (by simpa using hm)]
    simp [List.nodup_append, h, hm]

/-- Claim C9: `likePost` preserves the no-duplicate-likes invariant; in
particular a user already in the likes set is never stored a second time
(its multiplicity after the call stays at most one). -/
theorem likePost_likes_nodup (store : List Post) (pid uid : Nat) (p : Post) (now : Int)
    (h : findById store pid = some p) (hnd : p.likes.Nodup) :
    ∃ q, findById (likePost store pid uid now).1 pid = some q ∧
      q.likes.Nodup ∧ q.likes.count uid ≤ 1 := by
  refine ⟨_, likePost_step store pid uid now p h, ?_, ?_⟩
  · exact toggleLikes_nodup p.likes uid hnd
  · exact List.nodup_iff_count_le_one.mp (toggleLikes_nodup p.likes uid hnd) uid

/-- Witness for C9: toggling user 5 on a post whose likes are `[5, 6]`
keeps the likes array duplicate-free. -/
theorem likePost_likes_nodup_witness :
    ∃ q, findById (likePost [wPostLiked] 2 5 9).1 2 = some q ∧
      q.likes.Nodup ∧ q.likes.count 5 ≤ 1 :=
  likePost_likes_nodup [wPostLiked] 2 5 wPostLiked 9 (by rfl) (by decide)

/-- Claim C5: an authorized `deleteComment` removes exactly the comment
itself and its direct replies; concretely, deleting `exC1` (which has two
direct replies and one grandchild reply) removes exactly three documents and
the grandchild survives. -/
theorem deleteComment_scope (store : List Comment) (cid uid : Nat) (c : Comment)
    (h : findCommentById store cid = some c) (hu : c.user = uid) :
    (∀ d : Comment, d ∈ (deleteComment store cid uid).1 ↔
      (d ∈ store ∧ d.id ≠ cid ∧ d.parent ≠ some cid)) ∧
    (deleteComment exCommentStore 1 10).1 = [exGrand, exOther] ∧
    exCommentStore.length = (deleteComment exCommentStore 1 10).1.length + 3 := by
  refine ⟨?_, by decide, by decide⟩
  intro d
  simp only [deleteComment, h]
  rw [if_neg (by simp [hu])]
  simp [List.mem_filter, and_assoc]

/-- Witness for C5: instantiating the scope characterization at the
grandchild reply of the example store. -/
theorem deleteComment_scope_witness :
    exGrand ∈ (deleteComment exCommentStore 1 10).1 ↔
      (exGrand ∈ exCommentStore ∧ exGrand.id ≠ 1 ∧ exGrand.parent ≠ some 1) :=
  (deleteComment_scope exCommentStore 1 10 exC1 (by rfl) (by rfl)).1 exGrand

/-- Claim C7: when the derived slug of the new title equals the slug of an
already-stored post, `createPost` fails with the conflict error and the
store is unchanged. -/
theorem createPost_conflict (store : List Post) (author : Nat) (title content : String)
    (tags : List String) (excerpt coverImage : Option String) (newId : Nat) (now : Int)
    (p : Post) (hp : p ∈ store) (hs : p.slug = slugOf title) :
    createPost store author title content tags excerpt coverImage newId now =
      (store, Except.error ApiErr.conflict) := by
  have hany : (store.any fun q => q.slug == slugOf title) = true :=
    List.any_eq_true.mpr ⟨p, hp, by simp [hs]⟩
  simp only [createPost]
  rw [if_pos hany]

/-- Witness for C7: creating "Hello, World!" while a post with slug
"hello-world" is stored is rejected and the store stays `[wSlugPost]`. -/
theorem createPost_conflict_witness :
    createPost [wSlugPost] 7 "Hello, World!" "c" [] none none 9 5 =
      ([wSlugPost], Except.error ApiErr.conflict) :=
  createPost_conflict [wSlugPost] 7 "Hello, World!" "c" [] none none 9 5 wSlugPost
    (by decide) (by decide)

/-- Claim C8: a delete request on a post or a comment by a requester who is
not the document's author yields the authorization failure and leaves the
whole collection unchanged. -/
theorem delete_nonOwner (pstore : List Post) (pid uid : Nat) (post : Post)
    (cstore : List Comment) (cid vid : Nat) (c : Comment)
    (hp : findById pstore pid = some post) (hpu : post.author ≠ uid)
    (hc : findCommentById cstore cid = some c) (hcu : c.user ≠ vid) :
    deletePost pstore pid uid = (pstore, Except.error ApiErr.notAuthorized) ∧
    deleteComment cstore cid vid = (cstore, Except.error ApiErr.notAuthorized) := by
  constructor
  · simp only [deletePost, hp]
    rw [if_pos hpu]
  · simp only [deleteComment, hc]
    rw [if_pos hcu]

/-- Witness for C8: user 8 can delete neither `wPost` (authored by 7) nor
`exC1` (authored by 10). -/
theorem delete_nonOwner_witness :
    deletePost [wPost] 1 8 = ([wPost], Except.error ApiErr.notAuthorized) ∧
    deleteComment exCommentStore 1 8 = (exCommentStore, Except.error ApiErr.notAuthorized) :=
  delete_nonOwner [wPost] 1 8 wPost exCommentStore 1 8 exC1 (by rfl) (by decide)
    (by rfl) (by decide)

/-- Claim C10: `updateUserProfile` treats a supplied empty string like an
absent field — name, bio and avatar keep their stored values — and it never
modifies the stored email or role. -/
theorem updateUserProfile_frame (users : List User) (uid : Nat) (body : ProfileBody)
    (u : User) (h : findUserById users uid = some u) :
    ∃ v, findUserById (updateUserProfile users uid body).1 uid = some v ∧
      v.email = u.email ∧ v.role = u.role ∧
      ((body.name = none ∨ body.name = some "") → v.name = u.name) ∧
      ((body.bio = none ∨ body.bio = some "") → v.bio = u.bio) ∧
      ((body.avatar = none ∨ body.avatar = some "") → v.avatar_url = u.avatar_url) := by
  have hid : u.id = uid := by simpa using List.find?_some h
  have hsome : (users.find? fun x => x.id == uid).isSome := by
    unfold findUserById at h
    rw [h]
    rfl
  refine ⟨{ u with
      name := jsOrStr body.name u.name
      bio := jsOrStr body.bio u.bio
      avatar_url := jsOrStr body.avatar u.avatar_url }, ?_, rfl, rfl, ?_, ?_, ?_⟩
  · simp only [updateUserProfile, h]
    unfold findUserById
    have hrep := find?_replace User.id users uid
      { u with
        name := jsOrStr body.name u.name
        bio := jsOrStr body.bio u.bio
        avatar_url := jsOrStr body.avatar u.avatar_url } hsome (by simpa using hid)
    simpa [hid] using hrep
  · rintro (hb | hb) <;> simp [hb, jsOrStr]
  · rintro (hb | hb) <;> simp [hb, jsOrStr]
  · rintro (hb | hb) <;> simp [hb, jsOrStr]

/-- Witness for C10: an update supplying an empty name, no bio and an empty
avatar leaves every profile field of the stored user unchanged. -/
theorem updateUserProfile_frame_witness :
    ∃ v, findUserById
        (updateUserProfile [wUser] 4 { name := some "", bio := none, avatar := some "" }).1 4 =
          some v ∧
      v.email = wUser.email ∧ v.role = wUser.role ∧
      ((some "" : Option String) = none ∨ (some "" : Option String) = some "" → v.name = wUser.name) ∧
      ((none : Option String) = none ∨ (none : Option String) = some "" → v.bio = wUser.bio) ∧
      ((some "" : Option String) = none ∨ (some "" : Option String) = some "" → v.avatar_url = wUser.avatar_url) :=
  updateUserProfile_frame [wUser] 4 { name := some "", bio := none, avatar := some "" } wUser
    (by rfl)

lemma specWords_of_dropWhile_nil (l : List Char)
    (h : l.dropWhile (fun c => !isAlnumChar c) = []) : specWords l = [] := by
  rw [specWords.eq_def]
  split
  · rfl
  · next c cs h2 => rw [h] at h2; cases h2

lemma specWords_of_dropWhile_cons (l : List Char) (c : Char) (cs : List Char)
    (h : l.dropWhile (fun c => !isAlnumChar c) = c :: cs) :
    specWords l = (c :: cs).takeWhile isAlnumChar ::
      specWords ((c :: cs).dropWhile isAlnumChar) := by
  rw [specWords.eq_def]
  split
  · next h2 => rw [h] at h2; cases h2
  · next c2 cs2 h2 =>
    rw [h] at h2
    cases h2
    rfl

lemma specWords_nil : specWords [] = [] :=
  specWords_of_dropWhile_nil [] rfl

lemma specWords_cons_alnum (c : Char) (cs : List Char) (hc : isAlnumChar c = true) :
    specWords (c :: cs) = (c :: cs).takeWhile isAlnumChar ::
      specWords ((c :: cs).dropWhile isAlnumChar) :=
  specWords_of_dropWhile_cons (c :: cs) c cs
    (List.dropWhile_cons_of_neg (by simp [hc]))

lemma specWords_eq_dropWhile (l : List Char) :
    specWords (l.dropWhile fun c => !isAlnumChar c) = specWords l := by
  cases hl : l.dropWhile (fun c => !isAlnumChar c) with
  | nil =>
    rw [specWords_nil, specWords_of_dropWhile_nil l hl]
  | cons c cs =>
    have hidem : (c :: cs).dropWhile (fun c => !isAlnumChar c) = c :: cs := by
      rw [← hl]
      exact List.dropWhile_idempotent (fun c => !isAlnumChar c) l
    rw [specWords_of_dropWhile_cons (c :: cs) c cs hidem,
      specWords_of_dropWhile_cons l c cs hl]

lemma mem_of_head?_some {α : Type} {l : List α} {a : α} (h : l.head? = some a) : a ∈ l := by
  cases l with
  | nil => cases h
  | cons b t =>
    rw [List.head?_cons] at h
    obtain rfl := Option.some.inj h
    exact List.mem_cons_self b t

lemma specWords_good : ∀ (n : Nat) (l : List Char), l.length ≤ n →
    ∀ w ∈ specWords l, w ≠ [] ∧ ∀ ch ∈ w, isAlnumChar ch = true := by
  intro n
  induction n with
  | zero =>
    intro l hl
    have hnil : l = [] := List.eq_nil_of_length_eq_zero (Nat.le_zero.mp hl)
    subst hnil
    rw [specWords_nil]
    intro w hw
    simp at hw
  | succ n ih =>
    intro l hl
    cases hdl : l.dropWhile (fun c => !isAlnumChar c) with
    | nil =>
      rw [specWords_of_dropWhile_nil l hdl]
      intro w hw
      simp at hw
    | cons c cs =>
      have hc : isAlnumChar c = true := by
        have hh := List.head?_dropWhile_not (fun c => !isAlnumChar c) l
        rw [hdl] at hh
        simpa using hh
      rw [specWords_of_dropWhile_cons l c cs hdl]
      intro w hw
      rcases List.mem_cons.mp hw with hw1 | hw2
      · subst hw1
        constructor
        · rw [List.takeWhile_cons_of_pos hc]
          simp
        · intro ch hch
          exact List.mem_takeWhile_imp hch
      · have hlen : ((c :: cs).dropWhile isAlnumChar).length ≤ n := by
          have h1 : ((c :: cs).dropWhile isAlnumChar).length =
              (cs.dropWhile isAlnumChar).length := by
            rw [List.dropWhile_cons_of_pos hc]
          have h2 : (cs.dropWhile isAlnumChar).length ≤ cs.length :=
            (List.dropWhile_sublist _).length_le
          have h3 : (c :: cs).length ≤ l.length := by
            rw [← hdl]
            exact (List.dropWhile_sublist _).length_le
          simp only [List.length_cons] at h3
          omega
        exact ih _ hlen w hw2

lemma specWords_good_all (l : List Char) :
    ∀ w ∈ specWords l, w ≠ [] ∧ ∀ ch ∈ w, isAlnumChar ch = true :=
  specWords_good l.length l le_rfl

lemma joinWords_ne_nil (ws : List (List Char)) (hne : ws ≠ [])
    (hw : ∀ w ∈ ws, w ≠ []) : joinWords ws ≠ [] := by
  match ws with
  | [w] => simpa [joinWords] using hw w (by simp)
  | w :: w2 :: ws =>
    simp only [joinWords]
    intro hcontra
    have h2 := (List.append_eq_nil.mp hcontra).2
    cases h2

lemma head?_joinWords_alnum (ws : List (List Char))
    (hgood : ∀ w ∈ ws, w ≠ [] ∧ ∀ ch ∈ w, isAlnumChar ch = true) :
    ∀ c, (joinWords ws).head? = some c → isAlnumChar c = true := by
  match ws with
  | [] =>
    intro c hc
    simp [joinWords] at hc
  | [w] =>
    intro c hc
    simp only [joinWords] at hc
    exact (hgood w (by simp)).2 c (mem_of_head?_some hc)
  | w :: w2 :: ws =>
    intro c hc
    simp only [joinWords] at hc
    rw [List.head?_append] at hc
    obtain ⟨a, t, rfl⟩ : ∃ a t, w = a :: t := by
      rcases w with _ | ⟨a, t⟩
      · exact absurd rfl (hgood _ (by simp)).1
      · exact ⟨a, t, rfl⟩
    rw [List.head?_cons, Option.or_some] at hc
    obtain rfl := Option.some.inj hc
    exact (hgood (a :: t) (by simp)).2 a (by simp)

lemma getLast?_joinWords_alnum : ∀ (ws : List (List Char)),
    (∀ w ∈ ws, w ≠ [] ∧ ∀ ch ∈ w, isAlnumChar ch = true) →
    ∀ c, (joinWords ws).getLast? = some c → isAlnumChar c = true := by
  intro ws
  induction ws with
  | nil =>
    intro _ c hc
    simp [joinWords] at hc
  | cons w ws ih =>
    intro hgood c hc
    cases ws with
    | nil =>
      simp only [joinWords] at hc
      exact (hgood w (by simp)).2 c (List.mem_of_getLast?_eq_some hc)
    | cons w2 ws2 =>
      simp only [joinWords] at hc
      have hJ : joinWords (w2 :: ws2) ≠ [] :=
        joinWords_ne_nil _ (by simp)
          (fun x hx => (hgood x (List.mem_cons_of_mem w hx)).1)
      obtain ⟨d, hd⟩ : ∃ d, (joinWords (w2 :: ws2)).getLast? = some d := by
        cases hJl : (joinWords (w2 :: ws2)).getLast? with
        | none => exact absurd (List.getLast?_eq_none_iff.mp hJl) hJ
        | some d => exact ⟨d, rfl⟩
      rw [show ('-' :: joinWords (w2 :: ws2)) = ['-'] ++ joinWords (w2 :: ws2) from rfl,
        List.getLast?_append, List.getLast?_append, hd, Option.or_some, Option.or_some] at hc
      have hdc : d = c := Option.some.inj hc
      rw [← hdc]
      exact ih (fun x hx => hgood x (List.mem_cons_of_mem w hx)) d hd

lemma collapseAux_word : ∀ (w rest : List Char), (∀ c ∈ w, isAlnumChar c = true) →
    collapseAux false (w ++ rest) = w ++ collapseAux false rest := by
  intro w
  induction w with
  | nil =>
    intro rest _
    rfl
  | cons a t ih =>
    intro rest hw
    have ha : isAlnumChar a = true := hw a (by simp)
    have ht := ih rest (fun c hc => hw c (by simp [hc]))
    simp [collapseAux, ha, ht]

lemma collapseAux_true_skip : ∀ (pre rest : List Char),
    (∀ c ∈ pre, isAlnumChar c = false) →
    collapseAux true (pre ++ rest) = collapseAux true rest := by
  intro pre
  induction pre with
  | nil =>
    intro rest _
    rfl
  | cons a t ih =>
    intro rest hw
    have ha : isAlnumChar a = false := hw a (by simp)
    have ht := ih rest (fun c hc => hw c (by simp [hc]))
    simp [collapseAux, ha, ht]

lemma collapseAux_false_eq (l : List Char) :
    collapseAux false l =
      (match l.head? with
        | some c => if isAlnumChar c then ([] : List Char) else ['-']
        | none => []) ++ collapseAux true l := by
  cases l with
  | nil => rfl
  | cons c cs =>
    by_cases hc : isAlnumChar c = true
    · simp [collapseAux, hc, List.head?_cons]
    · have hcf : isAlnumChar c = false := by simpa using hc
      simp [collapseAux, hcf, List.head?_cons]

lemma getLast?_cons_some {α : Type} (a : α) (l : List α) :
    ∃ d, (a :: l).getLast? = some d := by
  cases hg : (a :: l).getLast? with
  | none => simp [List.getLast?_eq_none_iff] at hg
  | some d => exact ⟨d, rfl⟩

lemma getLast?_append_right {α : Type} (l1 l2 : List α) (d : α)
    (h : l2.getLast? = some d) : (l1 ++ l2).getLast? = some d := by
  rw [List.getLast?_append, h, Option.or_some]

lemma endsNonAlnum_congr {l l2 : List Char} (h : l.getLast? = l2.getLast?) :
    endsNonAlnum l = endsNonAlnum l2 := by
  unfold endsNonAlnum
  rw [h]

lemma endsNonAlnum_true_of {l : List Char} {d : Char} (h : l.getLast? = some d)
    (hd : isAlnumChar d = false) : endsNonAlnum l = true := by
  unfold endsNonAlnum
  rw [h]
  simp [hd]

lemma endsNonAlnum_false_of {l : List Char} {d : Char} (h : l.getLast? = some d)
    (hd : isAlnumChar d = true) : endsNonAlnum l = false := by
  unfold endsNonAlnum
  rw [h]
  simp [hd]

lemma collapseAux_true_decomp : ∀ (n : Nat) (l : List Char), l.length ≤ n →
    collapseAux true l =
      joinWords (specWords l) ++
        (if endsNonAlnum l ∧ specWords l ≠ [] then ['-'] else []) := by
  intro n
  induction n with
  | zero =>
    intro l hl
    have hnil : l = [] := List.eq_nil_of_length_eq_zero (Nat.le_zero.mp hl)
    subst hnil
    simp [collapseAux, specWords_nil, joinWords]
  | succ n ih =>
    intro l hl
    cases l with
    | nil => simp [collapseAux, specWords_nil, joinWords]
    | cons c cs =>
      simp only [List.length_cons] at hl
      by_cases hc : isAlnumChar c = true
      · have htw : (c :: cs).takeWhile isAlnumChar = c :: cs.takeWhile isAlnumChar :=
          List.takeWhile_cons_of_pos hc
        have hdw : (c :: cs).dropWhile isAlnumChar = cs.dropWhile isAlnumChar :=
          List.dropWhile_cons_of_pos hc
        have hSW := specWords_cons_alnum c cs hc
        rw [htw, hdw] at hSW
        have hsplitcs : cs.takeWhile isAlnumChar ++ cs.dropWhile isAlnumChar = cs :=
          List.takeWhile_append_dropWhile isAlnumChar cs
        have hLHS : collapseAux true (c :: cs) =
            (c :: cs.takeWhile isAlnumChar) ++ collapseAux false (cs.dropWhile isAlnumChar) := by
          have h1 : collapseAux false cs =
              cs.takeWhile isAlnumChar ++ collapseAux false (cs.dropWhile isAlnumChar) := by
            conv_lhs => rw [← hsplitcs]
            exact collapseAux_word _ _ (fun ch hch => List.mem_takeWhile_imp hch)
          simp [collapseAux, hc, h1]
        cases hrest : cs.dropWhile isAlnumChar with
        | nil =>
          have hallcs : ∀ x ∈ cs, isAlnumChar x = true := fun x hx =>
            List.dropWhile_eq_nil_iff.mp hrest x hx
          have hEnds : endsNonAlnum (c :: cs) = false := by
            obtain ⟨d, hd⟩ := getLast?_cons_some c cs
            have hdm : d ∈ c :: cs := List.mem_of_getLast?_eq_some hd
            rcases List.mem_cons.mp hdm with rfl | hd2
            · exact endsNonAlnum_false_of hd hc
            · exact endsNonAlnum_false_of hd (hallcs d hd2)
          rw [hLHS, hSW, hrest, specWords_nil]
          rw [if_neg (by simp [hEnds])]
          simp [joinWords, collapseAux]
        | cons d ds =>
          have hd : isAlnumChar d = false := by
            have hh := List.head?_dropWhile_not isAlnumChar cs
            rw [hrest] at hh
            simpa using hh
          have hfr : collapseAux false (d :: ds) =
              '-' :: collapseAux true ((d :: ds).dropWhile (fun x => !isAlnumChar x)) := by
            have h2 : (d :: ds).dropWhile (fun x => !isAlnumChar x) =
                ds.dropWhile (fun x => !isAlnumChar x) :=
              List.dropWhile_cons_of_pos (by simp [hd])
            have h3 : collapseAux true ds =
                collapseAux true (ds.dropWhile (fun x => !isAlnumChar x)) := by
              conv_lhs => rw [← List.takeWhile_append_dropWhile (fun x => !isAlnumChar x) (l := ds)]
              exact collapseAux_true_skip _ _
                (fun ch hch => by simpa using List.mem_takeWhile_imp hch)
            simp [collapseAux, hd, h2, h3]
          have hlen2 : ((d :: ds).dropWhile (fun x => !isAlnumChar x)).length ≤ n := by
            have h2 : ((d :: ds).dropWhile (fun x => !isAlnumChar x)).length ≤
                (d :: ds).length := (List.dropWhile_sublist _).length_le
            have h3 : (d :: ds).length ≤ cs.length := by
              rw [← hrest]
              exact (List.dropWhile_sublist _).length_le
            simp only [List.length_cons] at h2 h3
            omega
          have hIH := ih _ hlen2
          have hSWrest : specWords ((d :: ds).dropWhile (fun x => !isAlnumChar x)) =
              specWords (d :: ds) := specWords_eq_dropWhile (d :: ds)
          have hsplit2 : c :: cs = (c :: cs.takeWhile isAlnumChar) ++ (d :: ds) := by
            rw [show (c :: cs.takeWhile isAlnumChar) ++ (d :: ds) =
              c :: (cs.takeWhile isAlnumChar ++ (d :: ds)) from rfl]
            rw [← hrest, hsplitcs]
          cases hrest2 : (d :: ds).dropWhile (fun x => !isAlnumChar x) with
          | nil =>
            have hallrest : ∀ x ∈ d :: ds, isAlnumChar x = false := by
              intro x hx
              have hxx := List.dropWhile_eq_nil_iff.mp hrest2 x hx
              simpa using hxx
            have hSWnil : specWords (d :: ds) = [] := by
              rw [← hSWrest, hrest2, specWords_nil]
            have hEnds : endsNonAlnum (c :: cs) = true := by
              obtain ⟨f, hf⟩ := getLast?_cons_some d ds
              have hgl : (c :: cs).getLast? = some f := by
                rw [hsplit2]
                exact getLast?_append_right _ _ f hf
              exact endsNonAlnum_true_of hgl
                (hallrest f (List.mem_of_getLast?_eq_some hf))
            rw [hLHS, hSW, hrest, hfr, hrest2, hSWnil]
            rw [if_pos ⟨hEnds, by simp⟩]
            simp [joinWords, collapseAux]
          | cons e es =>
            have he : isAlnumChar e = true := by
              have hh := List.head?_dropWhile_not (fun x => !isAlnumChar x) (d :: ds)
              rw [hrest2] at hh
              simpa using hh
            have hSW2 := specWords_cons_alnum e es he
            have hSWr : specWords (d :: ds) = specWords (e :: es) := by
              rw [← hSWrest, hrest2]
            have hsplit3 : d :: ds =
                (d :: ds).takeWhile (fun x => !isAlnumChar x) ++ (e :: es) := by
              conv_lhs =>
                rw [← List.takeWhile_append_dropWhile (fun x => !isAlnumChar x) (l := d :: ds)]
              rw [hrest2]
            obtain ⟨f, hf⟩ := getLast?_cons_some e es
            have hgl : (c :: cs).getLast? = (e :: es).getLast? := by
              rw [hsplit2, hsplit3, hf]
              rw [show ((c :: cs.takeWhile isAlnumChar) ++
                  ((d :: ds).takeWhile (fun x => !isAlnumChar x) ++ (e :: es))) =
                  ((c :: cs.takeWhile isAlnumChar) ++
                    (d :: ds).takeWhile (fun x => !isAlnumChar x)) ++ (e :: es) from by
                simp [List.append_assoc]]
              exact getLast?_append_right _ _ f hf
            have hEnds : endsNonAlnum (c :: cs) = endsNonAlnum (e :: es) :=
              endsNonAlnum_congr hgl
            have hne2 : specWords (e :: es) ≠ [] := by
              rw [hSW2]
              simp
            rw [hrest2] at hIH
            rw [hLHS, hSW, hrest, hfr, hrest2, hSWr, hIH, hEnds]
            by_cases hE : endsNonAlnum (e :: es) = true
            · rw [if_pos ⟨hE, hne2⟩, if_pos ⟨hE, by simp⟩]
              rw [hSW2]
              simp [joinWords]
            · have hEf : endsNonAlnum (e :: es) = false := by simpa using hE
              rw [if_neg (by simp [hEf]), if_neg (by simp [hEf])]
              rw [hSW2]
              simp [joinWords]
      · have hcf : isAlnumChar c = false := by simpa using hc
        have h1 : collapseAux true (c :: cs) =
            collapseAux true (cs.dropWhile (fun x => !isAlnumChar x)) := by
          have h2 : collapseAux true cs =
              collapseAux true (cs.dropWhile (fun x => !isAlnumChar x)) := by
            conv_lhs => rw [← List.takeWhile_append_dropWhile (fun x => !isAlnumChar x) (l := cs)]
            exact collapseAux_true_skip _ _
              (fun ch hch => by simpa using List.mem_takeWhile_imp hch)
          simp [collapseAux, hcf, h2]
        have h2 : specWords (c :: cs) = specWords (cs.dropWhile (fun x => !isAlnumChar x)) := by
          have h3 : (c :: cs).dropWhile (fun x => !isAlnumChar x) =
              cs.dropWhile (fun x => !isAlnumChar x) :=
            List.dropWhile_cons_of_pos (by simp [hcf])
          rw [← specWords_eq_dropWhile (c :: cs), h3]
        have hlen2 : (cs.dropWhile (fun x => !isAlnumChar x)).length ≤ n := by
          have h4 : (cs.dropWhile (fun x => !isAlnumChar x)).length ≤ cs.length :=
            (List.dropWhile_sublist _).length_le
          omega
        have hIH := ih _ hlen2
        cases hl2 : cs.dropWhile (fun x => !isAlnumChar x) with
        | nil =>
          rw [h1, h2, hl2, specWords_nil]
          simp [collapseAux, joinWords]
        | cons e es =>
          have hsplit2 : c :: cs =
              (c :: cs.takeWhile (fun x => !isAlnumChar x)) ++ (e :: es) := by
            rw [show (c :: cs.takeWhile (fun x => !isAlnumChar x)) ++ (e :: es) =
              c :: (cs.takeWhile (fun x => !isAlnumChar x) ++ (e :: es)) from rfl]
            rw [← hl2, List.takeWhile_append_dropWhile]
          obtain ⟨f, hf⟩ := getLast?_cons_some e es
          have hgl : (c :: cs).getLast? = (e :: es).getLast? := by
            rw [hsplit2, hf]
            exact getLast?_append_right _ _ f hf
          have hEnds : endsNonAlnum (c :: cs) = endsNonAlnum (e :: es) :=
            endsNonAlnum_congr hgl
          rw [h1, h2, hl2, hEnds]
          rw [hl2] at hIH
          exact hIH

lemma head?_some_of_ne_nil {α : Type} {l : List α} (h : l ≠ []) :
    ∃ a, l.head? = some a := by
  cases l with
  | nil => exact absurd rfl h
  | cons a t => exact ⟨a, rfl⟩

lemma trimLead_hyphen (l : List Char) : trimLead ('-' :: l) = l := by
  simp [trimLead]

lemma trimLead_of_head_alnum (l : List Char)
    (h : ∀ c, l.head? = some c → isAlnumChar c = true) : trimLead l = l := by
  cases l with
  | nil => rfl
  | cons c cs =>
    have hc := h c (by rw [List.head?_cons])
    have hne : c ≠ '-' := by
      intro he
      rw [he] at hc
      exact absurd hc (by decide)
    simp [trimLead, hne]

lemma trimTrail_append_hyphen (l : List Char) : trimTrail (l ++ ['-']) = l := by
  simp [trimTrail, trimLead]

lemma trimTrail_of_last_alnum (l : List Char)
    (h : ∀ c, l.getLast? = some c → isAlnumChar c = true) : trimTrail l = l := by
  unfold trimTrail
  rw [trimLead_of_head_alnum]
  · exact List.reverse_reverse l
  · intro c hc
    rw [List.head?_reverse] at hc
    exact h c hc

lemma trim_assemble (J tr lead : List Char)
    (hlead : lead = [] ∨ lead = ['-'])
    (htr : tr = [] ∨ tr = ['-'])
    (hJne : J ≠ [])
    (hHead : ∀ c, J.head? = some c → isAlnumChar c = true)
    (hLast : ∀ c, J.getLast? = some c → isAlnumChar c = true) :
    trimTrail (trimLead (lead ++ (J ++ tr))) = J := by
  obtain ⟨c0, hc0⟩ := head?_some_of_ne_nil hJne
  have hc0a := hHead c0 hc0
  have hstep1 : trimLead (lead ++ (J ++ tr)) = J ++ tr := by
    rcases hlead with rfl | rfl
    · simp only [List.nil_append]
      apply trimLead_of_head_alnum
      intro c hc
      rw [List.head?_append, hc0, Option.or_some] at hc
      exact (Option.some.inj hc) ▸ hc0a
    · rw [show ['-'] ++ (J ++ tr) = '-' :: (J ++ tr) from rfl, trimLead_hyphen]
  rw [hstep1]
  rcases htr with rfl | rfl
  · rw [List.append_nil]
    exact trimTrail_of_last_alnum J hLast
  · exact trimTrail_append_hyphen J

lemma slugChars_eq (l : List Char) :
    trimTrail (trimLead (collapseRuns l)) = joinWords (specWords l) := by
  unfold collapseRuns
  rw [collapseAux_false_eq, collapseAux_true_decomp l.length l le_rfl]
  cases hws : specWords l with
  | nil =>
    rw [if_neg (by simp)]
    simp only [joinWords, List.append_nil]
    cases l with
    | nil => simp [trimLead, trimTrail]
    | cons c cs =>
      by_cases hc : isAlnumChar c = true
      · exfalso
        rw [specWords_cons_alnum c cs hc] at hws
        simp at hws
      · have hcf : isAlnumChar c = false := by simpa using hc
        simp [List.head?_cons, hcf, trimLead, trimTrail]
  | cons w0 ws =>
    have hgood : ∀ w ∈ w0 :: ws, w ≠ [] ∧ ∀ ch ∈ w, isAlnumChar ch = true := by
      rw [← hws]
      exact specWords_good_all l
    have hJne : joinWords (w0 :: ws) ≠ [] :=
      joinWords_ne_nil _ (by simp) (fun w hw => (hgood w hw).1)
    apply trim_assemble
    · cases l with
      | nil => exact Or.inl rfl
      | cons c cs =>
        by_cases hc : isAlnumChar c = true
        · exact Or.inl (by simp [List.head?_cons, hc])
        · have hcf : isAlnumChar c = false := by simpa using hc
          exact Or.inr (by simp [List.head?_cons, hcf])
    · by_cases hE : endsNonAlnum l = true
      · exact Or.inr (if_pos ⟨hE, by simp⟩)
      · exact Or.inl (if_neg (by simp [hE]))
    · exact hJne
    · exact head?_joinWords_alnum _ hgood
    · exact getLast?_joinWords_alnum _ hgood

/-- Claim C6: for every title, `createPost` derives the slug by lowercasing
the title, replacing each maximal run of non-alphanumeric characters with a
single hyphen and trimming leading and trailing hyphens — that is, the slug
is the maximal alphanumeric runs of the lowercased title joined by single
hyphens; in particular the slug of "Hello, World!" is "hello-world". -/
theorem slugOf_spec :
    (∀ title : String, slugOf title = specSlug title) ∧
    slugOf "Hello, World!" = "hello-world" := by
  constructor
  · intro title
    unfold slugOf specSlug
    exact congrArg String.mk (slugChars_eq (title.toList.map Char.toLower))
  · decide

end Blog
